import Mathlib

/-!
Verification of the beach-database adaptive region-collection engine.

Shallow embedding of the repository's core:
* `GeoProcessor.create_geohash` (src/processors/geo_processor.py) — the
  geohash spatial encoder, embedded over `ℚ` (Python floats idealised as
  exact rationals).
* `OSMCollector` (src/collectors/osm_collector.py) — area computation,
  grid splitting, the tenacity retry wrapper, and the `collect` decision
  logic, embedded as pure functions threading an oracle for the remote
  Overpass API, a global query counter, and an explicit event trace
  (queries and sleeps).
* `OSMCollector.validate_data` and `BeachDataOrchestrator._add_geohash`
  (src/main.py) — record validation and geohash tagging.
-/

namespace BeachDB

/-! ## Geohash encoder (GeoProcessor.create_geohash) -/

/-- The 32-character geohash alphabet, `base32` in the source. -/
def base32 : List Char := "0123456789bcdefghjkmnpqrstuvwxyz".toList

/-- The halving-interval state of the geohash loop: current latitude and
longitude intervals plus the `is_even` dimension flag. -/
structure GHState where
  latLo : ℚ
  latHi : ℚ
  lonLo : ℚ
  lonHi : ℚ
  isEven : Bool
  deriving Repr, DecidableEq

/-- Initial state of the geohash loop: `lat_range = (-90, 90)`,
`lon_range = (-180, 180)`, `is_even = True`. -/
def ghInit : GHState :=
  { latLo := -90, latHi := 90, lonLo := -180, lonHi := 180, isEven := true }

/-- One bit-step of `create_geohash`'s while-loop: halve the active
interval, emit the bit, and flip `is_even`. -/
def ghBit (latitude longitude : ℚ) (s : GHState) : Bool × GHState :=
  if s.isEven then
    let mid := (s.lonLo + s.lonHi) / 2
    if longitude > mid then
      (true, { s with lonLo := mid, isEven := false })
    else
      (false, { s with lonHi := mid, isEven := false })
  else
    let mid := (s.latLo + s.latHi) / 2
    if latitude > mid then
      (true, { s with latLo := mid, isEven := true })
    else
      (false, { s with latHi := mid, isEven := true })

/-- The inner iterations of the loop walking the `bit` counter through
the weight array `bits`, accumulating `ch |= bits[bit]` on each emitted
1-bit. -/
def ghBits (latitude longitude : ℚ) :
    List ℕ → GHState → ℕ → ℕ × GHState
  | [], s, ch => (ch, s)
  | w :: ws, s, ch =>
    let (b, s') := ghBit latitude longitude s
    ghBits latitude longitude ws s' (if b then ch ||| w else ch)

/-- Five bit-steps of the loop accumulating one output character's value
`ch` with the bit weights `bits = [16, 8, 4, 2, 1]`. -/
def ghChar (latitude longitude : ℚ) (s : GHState) : ℕ × GHState :=
  ghBits latitude longitude [16, 8, 4, 2, 1] s 0

/-- The loop of `create_geohash`: keep appending characters until
`precision` characters have been produced. -/
def ghAux (latitude longitude : ℚ) : ℕ → GHState → List Char
  | 0, _ => []
  | n + 1, s =>
    let (ch, s') := ghChar latitude longitude s
    base32.getD ch ' ' :: ghAux latitude longitude n s'

/-- `GeoProcessor.create_geohash(latitude, longitude, precision)`,
returning the geohash as a list of characters. -/
def create_geohash (latitude longitude : ℚ) (precision : ℕ := 8) : List Char :=
  ghAux latitude longitude precision ghInit

/-! ## Record validation (OSMCollector.validate_data) -/

/-- The fields of `BeachData` that the core logic reads: OSM records
carry an optional name (Python `None` maps to `none`) and coordinates;
the `geohash` attribute is attached later by the orchestrator. -/
structure BeachData where
  id : String
  name : Option String
  latitude : ℚ
  longitude : ℚ
  geohash : List Char := []
  deriving Repr, DecidableEq

/-- Python truthiness of `data.name`: `None` and the empty string are
falsy. -/
def nameFalsy : Option String → Bool
  | none => true
  | some n => n.toList = []

/-- `OSMCollector.validate_data`. -/
def validate_data (data : BeachData) : Bool :=
  if nameFalsy data.name then false
  else
    match data.name with
    | none => false
    | some n =>
      let cs := n.toList
      if List.isPrefixOf "Beach ".toList cs ∨
          cs.map Char.toLower = "unnamed beach".toList then false
      else if cs.length < 3 then false
      else if cs.all Char.isDigit then false
      else if data.latitude < -90 ∨ 90 < data.latitude then false
      else if data.longitude < -180 ∨ 180 < data.longitude then false
      else true

/-- `BeachDataOrchestrator._add_geohash`: tag a record with the geohash of
its coordinates at the default precision 8. -/
def add_geohash (beach : BeachData) : BeachData :=
  { beach with geohash := create_geohash beach.latitude beach.longitude 8 }

/-! ## Regions and area (OSMCollector) -/

/-- A bounding box as passed to `OSMCollector.collect`: the dict with keys
`name`, `south`, `north`, `west`, `east`. -/
structure Region where
  name : String
  south : ℚ
  north : ℚ
  west : ℚ
  east : ℚ
  deriving Repr, DecidableEq

/-- `self.max_area = 4.0`: maximum area in square degrees before
splitting. -/
def max_area : ℚ := 4

/-- `self.min_area = 0.25`: minimum area to prevent infinite splitting. -/
def min_area : ℚ := 1 / 4

/-- `self.max_retries = 3` (`stop_after_attempt(3)`). -/
def max_retries : ℕ := 3

/-- `self.query_delay = 2` seconds. -/
def query_delay : ℕ := 2

/-- `self.split_delay = 3` seconds. -/
def split_delay : ℕ := 3

/-- `OSMCollector._calculate_area`. -/
def calculate_area (r : Region) : ℚ :=
  (r.north - r.south) * (r.east - r.west)

/-- Area of the geometric intersection of two bounding boxes (zero when
they only touch or are disjoint). -/
def overlap_area (a b : Region) : ℚ :=
  max 0 (min a.north b.north - max a.south b.south) *
    max 0 (min a.east b.east - max a.west b.west)

/-! ## Grid splitting (OSMCollector._calculate_optimal_splits) -/

/-- `ceil(sqrt(n))` on a natural number (Python computes it via float
`sqrt`; exact for the magnitudes involved). -/
def natCeilSqrt (n : ℕ) : ℕ :=
  if Nat.sqrt n * Nat.sqrt n = n then Nat.sqrt n else Nat.sqrt n + 1

/-- `ceil(a / b)` on naturals (Python computes it via float division). -/
def ceilDiv (a b : ℕ) : ℕ := (a + b - 1) / b

/-- `splits_needed = ceil(area / self.max_area)` (clamped to `ℕ`; a
nonpositive value lands in the `splits_needed <= 1` branch exactly as in
the source). -/
def splitsNeeded (r : Region) : ℕ :=
  (Int.ceil (calculate_area r / max_area)).toNat

/-- `lat_splits = ceil(sqrt(splits_needed)) if lat_range > lon_range
else 1`. -/
def latSplitsOf (r : Region) : ℕ :=
  if r.north - r.south > r.east - r.west then natCeilSqrt (splitsNeeded r)
  else 1

/-- `lon_splits = ceil(splits_needed / lat_splits)`. -/
def lonSplitsOf (r : Region) : ℕ :=
  ceilDiv (splitsNeeded r) (latSplitsOf r)

/-- `lat_step = lat_range / lat_splits`. -/
def latStepOf (r : Region) : ℚ :=
  (r.north - r.south) / (latSplitsOf r : ℚ)

/-- `lon_step = lon_range / lon_splits`. -/
def lonStepOf (r : Region) : ℚ :=
  (r.east - r.west) / (lonSplitsOf r : ℚ)

/-- The sub-box built in the inner loop body of
`_calculate_optimal_splits` for row `i` and column `j`. -/
def subCell (r : Region) (i j : ℕ) : Region :=
  { name := r.name ++ "-" ++ toString i ++ "-" ++ toString j,
    south := r.south + i * latStepOf r,
    north := r.south + (i + 1) * latStepOf r,
    west := r.west + j * lonStepOf r,
    east := r.west + (j + 1) * lonStepOf r }

/-- `OSMCollector._calculate_optimal_splits`: the nested
`for i in range(lat_splits): for j in range(lon_splits)` loop appending
`split_region` values in row-major order. -/
def calculate_optimal_splits (r : Region) : List Region :=
  if splitsNeeded r ≤ 1 then [r]
  else
    (List.range (latSplitsOf r)).flatMap fun i =>
      (List.range (lonSplitsOf r)).map fun j => subCell r i j

/-! ## Leaf queries, failures, and the retry wrapper

The remote Overpass API is modelled as an oracle `oc : ℕ → QueryOutcome`
indexed by a global query counter that the collector threads through.
Every function returns its result together with the advanced counter and
an event trace recording the queries issued and the `time.sleep` calls
performed, so that attempt counts, ordering and delays are observable. -/

/-- A raw OSM way as the collector sees it: an id, the coordinates
`_extract_coordinates` yields (or `none`), and the `name` tag. -/
structure Way where
  wid : String
  coords : Option (ℚ × ℚ)
  wname : Option String
  deriving Repr, DecidableEq

/-- The outcome of one `self.api.query` call: a list of ways, an
`OverpassTooManyRequests` exception, an `OverpassGatewayTimeout`
exception, or any other exception (tagged with whether its message
contains the substring "timeout", which `collect`'s handler checks). -/
inductive QueryOutcome where
  | ways (ws : List Way)
  | tooManyRequests
  | gatewayTimeout
  | otherFailure (msgHasTimeout : Bool)
  deriving Repr, DecidableEq

/-- An exception escaping `_collect_with_retry`: tenacity's `RetryError`
after exhausted attempts, or a non-retryable exception. -/
inductive CollectError where
  | retryError
  | otherError (msgHasTimeout : Bool)
  deriving Repr, DecidableEq

/-- `"timeout" in str(e).lower()` for the exceptions that can reach
`collect`'s handler: a `RetryError` wrapping `OverpassTooManyRequests`
has no "timeout" in its message; other exceptions carry their flag. -/
def excHasTimeoutMsg : CollectError → Bool
  | .retryError => false
  | .otherError ht => ht

/-- An observable event: a query issued for a region, or a `time.sleep`
of the given number of seconds. -/
inductive Event where
  | query (r : Region)
  | sleep (n : ℕ)
  deriving Repr, DecidableEq

/-- Normal return or raised exception of a collector call. -/
inductive CResult where
  | ok (beaches : List BeachData)
  | error (e : CollectError)
  deriving Repr, DecidableEq

/-- Result, advanced query counter, and event trace of a collector
call. -/
abbrev CollectM := CResult × ℕ × List Event

/-- The per-way body of `_collect_with_retry`'s result loop: skip ways
without coordinates, build the `BeachData` (id `"osm_" + way.id`, `name`
tag, coordinates), keep it only if `validate_data` accepts it, then pass
it through the external enrichment service (a parameter, out of core
scope). -/
def process_ways (enrich : BeachData → BeachData) (ws : List Way) :
    List BeachData :=
  ws.filterMap fun w =>
    match w.coords with
    | none => none
    | some (la, lo) =>
      let b : BeachData :=
        { id := "osm_" ++ w.wid, name := w.wname, latitude := la,
          longitude := lo }
      if validate_data b then some (enrich b) else none

/-- `wait_exponential(..., min=4, ...)`. -/
def wait_min : ℕ := 4

/-- `wait_exponential(..., max=10)`. -/
def wait_max : ℕ := 10

/-- tenacity's `wait_exponential(multiplier=1, min=4, max=10)`: the wait
after failed attempt `n` is `multiplier * 2 ** n` clamped into
`[min, max]`. -/
def waitExp (n : ℕ) : ℕ := max wait_min (min (2 ^ n) wait_max)

/-- The tenacity retry loop around `_collect_with_retry`'s body:
`tries` attempts remain (including the current one), `attempt` is the
1-based attempt number, `k` the query counter.  A `ways` result is
processed and followed by `time.sleep(query_delay)`; an
`OverpassGatewayTimeout` is caught inside the body and returns `[]`; any
other exception propagates; an `OverpassTooManyRequests` is retryable
(`retry_if_exception(should_retry_exception)`): tenacity sleeps
`waitExp attempt` and tries again, unless `stop_after_attempt(3)` is
reached, in which case it raises `RetryError`. -/
def retryLoop (enrich : BeachData → BeachData) (oc : ℕ → QueryOutcome)
    (r : Region) : ℕ → ℕ → ℕ → CollectM
  | 0, _, k => (.error .retryError, k, [])
  | tries + 1, attempt, k =>
    match oc k with
    | .ways ws =>
      (.ok (process_ways enrich ws), k + 1,
        [.query r, .sleep query_delay])
    | .gatewayTimeout => (.ok [], k + 1, [.query r])
    | .otherFailure ht => (.error (.otherError ht), k + 1, [.query r])
    | .tooManyRequests =>
      if tries = 0 then (.error .retryError, k + 1, [.query r])
      else
        let (res, k', tr) := retryLoop enrich oc r tries (attempt + 1) (k + 1)
        (res, k', .query r :: .sleep (waitExp attempt) :: tr)

/-- `OSMCollector._collect_with_retry` under its retry decorator. -/
def collect_with_retry (enrich : BeachData → BeachData)
    (oc : ℕ → QueryOutcome) (k : ℕ) (r : Region) : CollectM :=
  retryLoop enrich oc r max_retries 1 k

/-! ## Split collection and the top-level collect -/

/-- The loop body of `_collect_split_region`: for each sub-box, sleep
`query_delay`, run the retry-wrapped leaf query, extend the aggregate and
sleep `split_delay` on success; on any exception log and `continue`
(the failed branch contributes nothing and the `split_delay` sleep is
skipped). -/
def splitLoop (enrich : BeachData → BeachData) (oc : ℕ → QueryOutcome) :
    List Region → ℕ → List BeachData × ℕ × List Event
  | [], k => ([], k, [])
  | sub :: rest, k =>
    let (res, k', tr) := collect_with_retry enrich oc k sub
    match res with
    | .ok bs =>
      let (acc, k'', tr') := splitLoop enrich oc rest k'
      (bs ++ acc, k'',
        (Event.sleep query_delay :: tr) ++ Event.sleep split_delay :: tr')
    | .error _ =>
      let (acc, k'', tr') := splitLoop enrich oc rest k'
      (acc, k'', (Event.sleep query_delay :: tr) ++ tr')

/-- `OSMCollector._collect_split_region`. -/
def collect_split_region (enrich : BeachData → BeachData)
    (oc : ℕ → QueryOutcome) (k : ℕ) (r : Region) : CollectM :=
  let (bs, k', tr) := splitLoop enrich oc (calculate_optimal_splits r) k
  (.ok bs, k', tr)

/-- `OSMCollector._handle_timeout`. -/
def handle_timeout (enrich : BeachData → BeachData)
    (oc : ℕ → QueryOutcome) (k : ℕ) (r : Region) : CollectM :=
  if calculate_area r ≤ min_area then (.ok [], k, [])
  else collect_split_region enrich oc k r

/-- `OSMCollector.collect`: split when `area > max_area and
area > min_area`; otherwise query directly; on an empty direct result
with `area > min_area`, fall back to split collection; exceptions whose
message mentions "timeout" go to `_handle_timeout`, any other exception
is re-raised. -/
def collect (enrich : BeachData → BeachData) (oc : ℕ → QueryOutcome)
    (k : ℕ) (r : Region) : CollectM :=
  let area := calculate_area r
  if area > max_area ∧ area > min_area then
    collect_split_region enrich oc k r
  else
    match collect_with_retry enrich oc k r with
    | (.ok beaches, k', tr) =>
      if beaches = [] ∧ area > min_area then
        let (res, k'', tr') := collect_split_region enrich oc k' r
        (res, k'', tr ++ tr')
      else (.ok beaches, k', tr)
    | (.error e, k', tr) =>
      if excHasTimeoutMsg e then
        let (res, k'', tr') := handle_timeout enrich oc k' r
        (res, k'', tr ++ tr')
      else (.error e, k', tr)

/-! ## Observables and the spec-side split recursion -/

/-- The regions queried in a trace, in order. -/
def tracedQueries (tr : List Event) : List Region :=
  tr.filterMap fun e =>
    match e with
    | .query r => some r
    | _ => none

/-- Number of attempts one retry-wrapped leaf query makes (each attempt
issues exactly one query). -/
def numAttempts (enrich : BeachData → BeachData) (oc : ℕ → QueryOutcome)
    (k : ℕ) (r : Region) : ℕ :=
  (tracedQueries (collect_with_retry enrich oc k r).2.2).length

/-- The sleep durations occurring inside one retry-wrapped leaf query, in
order. -/
def retrySleeps (enrich : BeachData → BeachData) (oc : ℕ → QueryOutcome)
    (k : ℕ) (r : Region) : List ℕ :=
  (collect_with_retry enrich oc k r).2.2.filterMap fun e =>
    match e with
    | .sleep n => some n
    | _ => none

/-- Modelled from the spec's words for the split recursion of claim C2
("recurse into `Evaluate` for each sub-box"): identical to `splitLoop`
except that each sub-box re-enters the full `collect` decision instead of
being queried directly. -/
def specSplitLoop (enrich : BeachData → BeachData)
    (oc : ℕ → QueryOutcome) :
    List Region → ℕ → List BeachData × ℕ × List Event
  | [], k => ([], k, [])
  | sub :: rest, k =>
    let (res, k', tr) := collect enrich oc k sub
    match res with
    | .ok bs =>
      let (acc, k'', tr') := specSplitLoop enrich oc rest k'
      (bs ++ acc, k'',
        (Event.sleep query_delay :: tr) ++ Event.sleep split_delay :: tr')
    | .error _ =>
      let (acc, k'', tr') := specSplitLoop enrich oc rest k'
      (acc, k'', (Event.sleep query_delay :: tr) ++ tr')

/-- Modelled from the spec's words for claim C2: split collection in
which every sub-box re-enters `Evaluate` (`collect`). -/
def spec_collect_split_region (enrich : BeachData → BeachData)
    (oc : ℕ → QueryOutcome) (k : ℕ) (r : Region) : CollectM :=
  let (bs, k', tr) := specSplitLoop enrich oc (calculate_optimal_splits r) k
  (.ok bs, k', tr)

/-! ## Concrete fixtures used by witnesses and counterexamples -/

/-- The identity enrichment (the enrichment service is an external
collaborator; concrete instances use the identity). -/
def idEnrich : BeachData → BeachData := fun b => b

/-- An 8°×8° region (area 64). -/
def rBig : Region := ⟨"big", 0, 8, 0, 8⟩

/-- A 2°×4° region (area 8, split into two 4-square-degree tiles). -/
def rMed : Region := ⟨"med", 0, 2, 0, 4⟩

/-- A 1°×1° region (area 1: queried directly). -/
def rOne : Region := ⟨"one", 0, 1, 0, 1⟩

/-- A 0.5°×0.5° region (area 1/4 = `min_area`: the recursion base
case). -/
def rTiny : Region := ⟨"tiny", 0, 1/2, 0, 1/2⟩

/-- A way with coordinates and a name that passes validation. -/
def goodWay : Way := ⟨"1", some (1, 1), some "Bondi Beach"⟩

/-- An oracle whose first query comes back empty and whose later queries
return one valid beach. -/
def ocEmptyThenGood : ℕ → QueryOutcome :=
  fun k => if k = 0 then .ways [] else .ways [goodWay]

/-- An oracle that always returns an empty result. -/
def ocEmpty : ℕ → QueryOutcome := fun _ => .ways []

/-- An accepted record fixture. -/
def bondi : BeachData := ⟨"osm_1", some "Bondi Beach", -33, 151, []⟩

/-- A purely numeric name fixture. -/
def numericBeach : BeachData := ⟨"osm_2", some "12345", 0, 0, []⟩

/-- A genuine place name beginning with "Beach ". -/
def beachHaven : BeachData := ⟨"osm_3", some "Beach Haven", 0, 0, []⟩

/-! # Helper lemmas: geohash encoder -/

lemma base32_length : base32.length = 32 := rfl

lemma ghBits_fst_lt (la lo : ℚ) :
    ∀ (ws : List ℕ) (s : GHState) (ch : ℕ),
      (∀ w ∈ ws, w < 32) → ch < 32 → (ghBits la lo ws s ch).1 < 32
  | [], _, _, _, hch => hch
  | w :: ws, s, ch, hws, hch => by
    rcases hb : ghBit la lo s with ⟨b, s'⟩
    have hw : w < 32 := hws w (by simp)
    have hrest : ∀ x ∈ ws, x < 32 := fun x hx => hws x (by simp [hx])
    have hch' : (if b then ch ||| w else ch) < 32 := by
      cases b with
      | false => simpa using hch
      | true =>
        have h32 : (32 : ℕ) = 2 ^ 5 := rfl
        rw [h32] at hch hw ⊢
        simpa using Nat.or_lt_two_pow hch hw
    have := ghBits_fst_lt la lo ws s' (if b then ch ||| w else ch) hrest hch'
    simpa [ghBits, hb] using this

lemma ghChar_fst_lt (la lo : ℚ) (s : GHState) : (ghChar la lo s).1 < 32 :=
  ghBits_fst_lt la lo [16, 8, 4, 2, 1] s 0 (by decide) (by decide)

lemma getD_mem_base32 {i : ℕ} (h : i < 32) (d : Char) :
    base32.getD i d ∈ base32 := by
  rw [List.getD_eq_getElem?_getD]
  have hlen : i < base32.length := by rw [base32_length]; exact h
  rw [List.getElem?_eq_getElem hlen]
  exact List.getElem_mem hlen

lemma ghAux_length (la lo : ℚ) :
    ∀ (n : ℕ) (s : GHState), (ghAux la lo n s).length = n
  | 0, _ => rfl
  | n + 1, s => by
    rcases hc : ghChar la lo s with ⟨ch, s'⟩
    simp [ghAux, hc, ghAux_length la lo n s']

lemma ghAux_mem (la lo : ℚ) :
    ∀ (n : ℕ) (s : GHState) (c : Char), c ∈ ghAux la lo n s → c ∈ base32
  | 0, _, c, h => by simp [ghAux] at h
  | n + 1, s, c, h => by
    rcases hc : ghChar la lo s with ⟨ch, s'⟩
    have hlt : ch < 32 := by
      have := ghChar_fst_lt la lo s
      rwa [hc] at this
    simp only [ghAux, hc] at h
    rcases List.mem_cons.1 h with h | h
    · subst h; exact getD_mem_base32 hlt _
    · exact ghAux_mem la lo n s' c h

lemma create_geohash_length (la lo : ℚ) (p : ℕ) :
    (create_geohash la lo p).length = p :=
  ghAux_length la lo p ghInit

lemma create_geohash_mem (la lo : ℚ) (p : ℕ) :
    ∀ c ∈ create_geohash la lo p, c ∈ base32 :=
  fun c hc => ghAux_mem la lo p ghInit c hc

/-! # Claim theorems: geohash encoder -/

/-- C6: for every latitude in [-90, 90], longitude in [-180, 180] and
precision ≥ 1, `create_geohash` returns a string of exactly `precision`
characters, all drawn from the 32-character alphabet
`0123456789bcdefghjkmnpqrstuvwxyz`. -/
theorem geohash_length_and_alphabet (latitude longitude : ℚ)
    (precision : ℕ) (hla₁ : -90 ≤ latitude) (hla₂ : latitude ≤ 90)
    (hlo₁ : -180 ≤ longitude) (hlo₂ : longitude ≤ 180)
    (hp : 1 ≤ precision) :
    (create_geohash latitude longitude precision).length = precision ∧
      ∀ c ∈ create_geohash latitude longitude precision, c ∈ base32 :=
  ⟨create_geohash_length latitude longitude precision,
    create_geohash_mem latitude longitude precision⟩

theorem geohash_length_and_alphabet_witness :
    ((-90 : ℚ) ≤ 0 ∧ (0 : ℚ) ≤ 90 ∧ (-180 : ℚ) ≤ 0 ∧ (0 : ℚ) ≤ 180 ∧
        (1 : ℕ) ≤ 8) ∧
      (create_geohash 0 0 8).length = 8 ∧
      ∀ c ∈ create_geohash 0 0 8, c ∈ base32 :=
  ⟨by norm_num,
    geohash_length_and_alphabet 0 0 8 (by norm_num) (by norm_num)
      (by norm_num) (by norm_num) (by norm_num)⟩

/-- C7 counterexample: the claim says an out-of-range coordinate makes
the encoder fail rather than return a geohash string, but
`create_geohash 1000 0 8` returns a full well-formed 8-character geohash
(the source performs no range validation). -/
theorem geohash_rejects_out_of_range_counterexample :
    ¬ (∀ (latitude longitude : ℚ) (precision : ℕ),
        (latitude < -90 ∨ 90 < latitude ∨
            longitude < -180 ∨ 180 < longitude) →
        ¬ ((create_geohash latitude longitude precision).length =
              precision ∧
            ∀ c ∈ create_geohash latitude longitude precision,
              c ∈ base32)) := by
  intro h
  exact h 1000 0 8 (Or.inr (Or.inl (by norm_num)))
    ⟨create_geohash_length 1000 0 8, create_geohash_mem 1000 0 8⟩

/-- C7 amended: the encoder performs no coordinate validation; even for
latitudes outside [-90, 90] or longitudes outside [-180, 180] it returns
a normal geohash string of exactly `precision` characters over the
32-character alphabet (no `InvalidCoordinate` failure exists). -/
theorem geohash_no_range_validation (latitude longitude : ℚ)
    (precision : ℕ)
    (h : latitude < -90 ∨ 90 < latitude ∨
        longitude < -180 ∨ 180 < longitude) :
    (create_geohash latitude longitude precision).length = precision ∧
      ∀ c ∈ create_geohash latitude longitude precision, c ∈ base32 :=
  ⟨create_geohash_length latitude longitude precision,
    create_geohash_mem latitude longitude precision⟩

theorem geohash_no_range_validation_witness :
    ((1000 : ℚ) < -90 ∨ (90 : ℚ) < 1000 ∨ (0 : ℚ) < -180 ∨
        (180 : ℚ) < 0) ∧
      (create_geohash 1000 0 8).length = 8 ∧
      ∀ c ∈ create_geohash 1000 0 8, c ∈ base32 :=
  ⟨Or.inr (Or.inl (by norm_num)),
    geohash_no_range_validation 1000 0 8
      (Or.inr (Or.inl (by norm_num)))⟩

/-! # Claim theorems: record validation and geohash tagging -/

/-- C9: `validate_data` rejects purely numeric names, names shorter than
3 characters, and coordinates outside latitude [-90, 90] / longitude
[-180, 180]; it accepts a record whose name passes all the name checks
(e.g. "Bondi Beach") with in-range coordinates; a record is only ever
emitted from a leaf query if it validated; and every record tagged by
`_add_geohash` carries a non-empty geohash of the configured precision
8. -/
theorem validation_and_geohash_tagging :
    (∀ (b : BeachData) (n : String), b.name = some n →
        n.toList.all Char.isDigit = true → validate_data b = false) ∧
    (∀ (b : BeachData) (n : String), b.name = some n →
        n.toList.length < 3 → validate_data b = false) ∧
    (∀ b : BeachData,
        (b.latitude < -90 ∨ 90 < b.latitude ∨
          b.longitude < -180 ∨ 180 < b.longitude) →
        validate_data b = false) ∧
    (∀ (b : BeachData) (n : String), b.name = some n →
        n.toList ≠ [] →
        List.isPrefixOf "Beach ".toList n.toList = false →
        n.toList.map Char.toLower ≠ "unnamed beach".toList →
        ¬ n.toList.length < 3 →
        n.toList.all Char.isDigit = false →
        -90 ≤ b.latitude → b.latitude ≤ 90 →
        -180 ≤ b.longitude → b.longitude ≤ 180 →
        validate_data b = true) ∧
    (∀ (enrich : BeachData → BeachData) (ws : List Way) (b : BeachData),
        b ∈ process_ways enrich ws →
        ∃ b₀, validate_data b₀ = true ∧ b = enrich b₀) ∧
    (∀ b : BeachData, validate_data b = true →
        (add_geohash b).geohash.length = 8 ∧
          (add_geohash b).geohash ≠ []) := by
  refine ⟨?_, ?_, ?_, ?_, ?_, ?_⟩
  · intro b n hn hdig
    simp only [validate_data, hn, nameFalsy]
    split_ifs <;> simp_all
  · intro b n hn hlen
    simp only [validate_data, hn, nameFalsy]
    split_ifs <;> simp_all
  · intro b hr
    rcases hn : b.name with _ | n
    · simp [validate_data, hn, nameFalsy]
    · simp only [validate_data, hn, nameFalsy]
      split_ifs <;> simp_all
  · intro b n hn hne hbe hun hlen hdig h1 h2 h3 h4
    have hne' : ¬ n.data = [] := by simpa using hne
    have hbe' : ¬ List.isPrefixOf "Beach ".toList n.data = true := by
      simp only [show n.data = n.toList from rfl, hbe]
      exact Bool.false_ne_true
    have hun' : ¬ List.map Char.toLower n.data = "unnamed beach".toList :=
      hun
    have hlen' : ¬ n.data.length < 3 := hlen
    have hdig' : ¬ n.data.all Char.isDigit = true := by
      simp only [show n.data = n.toList from rfl, hdig]
      exact Bool.false_ne_true
    simp only [validate_data, hn, nameFalsy]
    rw [if_neg (by simpa using hne'),
      if_neg (by push_neg; exact ⟨by simpa using hbe', by simpa using hun'⟩),
      if_neg (by simpa using hlen'), if_neg (by simpa using hdig'),
      if_neg (by push_neg; exact ⟨h1, h2⟩),
      if_neg (by push_neg; exact ⟨h3, h4⟩)]
  · intro enrich ws b hb
    simp only [process_ways, List.mem_filterMap] at hb
    rcases hb with ⟨w, _, hw⟩
    rcases hco : w.coords with _ | ⟨la, lo⟩ <;> rw [hco] at hw
    · simp at hw
    · dsimp at hw
      split_ifs at hw with hv
      all_goals first
        | exact ⟨_, hv, by simpa using hw.symm⟩
        | simp at hw
  · intro b _
    constructor
    · simpa [add_geohash] using
        create_geohash_length b.latitude b.longitude 8
    · intro hnil
      have := create_geohash_length b.latitude b.longitude 8
      rw [show (add_geohash b).geohash =
            create_geohash b.latitude b.longitude 8 from rfl] at hnil
      rw [hnil] at this
      simp at this

theorem validation_and_geohash_tagging_witness :
    (validate_data bondi = true ∧
        (add_geohash bondi).geohash.length = 8 ∧
        (add_geohash bondi).geohash ≠ []) ∧
      validate_data numericBeach = false := by
  have h := validation_and_geohash_tagging
  have hb : validate_data bondi = true :=
    h.2.2.2.1 bondi "Bondi Beach" rfl (by decide) (by decide) (by decide)
      (by decide) (by decide) (by norm_num [bondi]) (by norm_num [bondi])
      (by norm_num [bondi]) (by norm_num [bondi])
  exact ⟨⟨hb, h.2.2.2.2.2 bondi hb⟩,
    h.1 numericBeach "12345" rfl (by decide)⟩

/-- C10: `validate_data` rejects every name that starts with the exact
prefix "Beach " and every name equal to "unnamed beach"
case-insensitively — including genuine place names such as
"Beach Haven". -/
theorem name_blacklist_rejected :
    ∀ (b : BeachData) (n : String), b.name = some n →
      (List.isPrefixOf "Beach ".toList n.toList = true ∨
        n.toList.map Char.toLower = "unnamed beach".toList) →
      validate_data b = false := by
  intro b n hn hbad
  simp only [validate_data, hn, nameFalsy]
  split_ifs <;> simp_all

theorem name_blacklist_rejected_witness :
    (List.isPrefixOf "Beach ".toList "Beach Haven".toList = true ∨
        "Beach Haven".toList.map Char.toLower =
          "unnamed beach".toList) ∧
      validate_data beachHaven = false :=
  ⟨Or.inl (by decide),
    name_blacklist_rejected beachHaven "Beach Haven" rfl
      (Or.inl (by decide))⟩

/-! # Helper lemmas: the retry wrapper -/

/-- An oracle where every attempt hits a gateway timeout. -/
def ocGW : ℕ → QueryOutcome := fun _ => .gatewayTimeout

/-- An oracle where every attempt is rate limited. -/
def ocRL : ℕ → QueryOutcome := fun _ => .tooManyRequests

lemma retryLoop_unfold (enrich : BeachData → BeachData)
    (oc : ℕ → QueryOutcome) (r : Region) (tries attempt k : ℕ) :
    retryLoop enrich oc r (tries + 1) attempt k =
      match oc k with
      | .ways ws =>
        (.ok (process_ways enrich ws), k + 1,
          [.query r, .sleep query_delay])
      | .gatewayTimeout => (.ok [], k + 1, [.query r])
      | .otherFailure ht => (.error (.otherError ht), k + 1, [.query r])
      | .tooManyRequests =>
        if tries = 0 then (.error .retryError, k + 1, [.query r])
        else
          let (res, k', tr) :=
            retryLoop enrich oc r tries (attempt + 1) (k + 1)
          (res, k', .query r :: .sleep (waitExp attempt) :: tr) := rfl

lemma retryLoop_ways {oc : ℕ → QueryOutcome} {k : ℕ} {ws : List Way}
    (h : oc k = .ways ws) (enrich : BeachData → BeachData) (r : Region)
    (tries attempt : ℕ) :
    retryLoop enrich oc r (tries + 1) attempt k =
      (.ok (process_ways enrich ws), k + 1,
        [.query r, .sleep query_delay]) := by
  rw [retryLoop_unfold, h]

lemma retryLoop_gw {oc : ℕ → QueryOutcome} {k : ℕ}
    (h : oc k = .gatewayTimeout) (enrich : BeachData → BeachData)
    (r : Region) (tries attempt : ℕ) :
    retryLoop enrich oc r (tries + 1) attempt k =
      (.ok [], k + 1, [.query r]) := by
  rw [retryLoop_unfold, h]

lemma retryLoop_other {oc : ℕ → QueryOutcome} {k : ℕ} {ht : Bool}
    (h : oc k = .otherFailure ht) (enrich : BeachData → BeachData)
    (r : Region) (tries attempt : ℕ) :
    retryLoop enrich oc r (tries + 1) attempt k =
      (.error (.otherError ht), k + 1, [.query r]) := by
  rw [retryLoop_unfold, h]

lemma retryLoop_tooMany_last {oc : ℕ → QueryOutcome} {k : ℕ}
    (h : oc k = .tooManyRequests) (enrich : BeachData → BeachData)
    (r : Region) (attempt : ℕ) :
    retryLoop enrich oc r 1 attempt k =
      (.error .retryError, k + 1, [.query r]) := by
  rw [show (1 : ℕ) = 0 + 1 from rfl, retryLoop_unfold, h]
  simp

lemma retryLoop_tooMany_step {oc : ℕ → QueryOutcome} {k : ℕ}
    (h : oc k = .tooManyRequests) (enrich : BeachData → BeachData)
    (r : Region) (tries attempt : ℕ) :
    retryLoop enrich oc r (tries + 1 + 1) attempt k =
      ((retryLoop enrich oc r (tries + 1) (attempt + 1) (k + 1)).1,
        (retryLoop enrich oc r (tries + 1) (attempt + 1) (k + 1)).2.1,
        .query r :: .sleep (waitExp attempt) ::
          (retryLoop enrich oc r (tries + 1) (attempt + 1)
              (k + 1)).2.2) := by
  rw [retryLoop_unfold, h]
  simp

/-- Number of consecutive rate-limited outcomes the oracle reports
starting at query index `k` (what the first three attempts of one leaf
query can observe). -/
def leadingRateLimited (oc : ℕ → QueryOutcome) (k : ℕ) : ℕ :=
  if oc k = .tooManyRequests then
    if oc (k + 1) = .tooManyRequests then
      if oc (k + 2) = .tooManyRequests then 3 else 2
    else 1
  else 0

lemma numAttempts_eq (enrich : BeachData → BeachData)
    (oc : ℕ → QueryOutcome) (k : ℕ) (r : Region) :
    numAttempts enrich oc k r =
      min max_retries (leadingRateLimited oc k + 1) := by
  have hcwr : collect_with_retry enrich oc k r =
      retryLoop enrich oc r (1 + 1 + 1) 1 k := rfl
  unfold numAttempts leadingRateLimited
  rcases h0 : oc k with ws | _ | _ | ht
  · rw [hcwr, retryLoop_ways h0]
    simp [tracedQueries, max_retries, h0]
  · rcases h1 : oc (k + 1) with ws1 | _ | _ | ht1
    · rw [hcwr, retryLoop_tooMany_step h0, retryLoop_ways h1]
      simp [tracedQueries, max_retries, h0, h1]
    · have h2 : oc (k + 2) = oc (k + 1 + 1) := rfl
      rcases h2' : oc (k + 1 + 1) with ws2 | _ | _ | ht2 <;>
        rw [h2'] at h2
      · rw [hcwr, retryLoop_tooMany_step h0, retryLoop_tooMany_step h1,
          retryLoop_ways h2']
        simp [tracedQueries, max_retries, h0, h1, h2]
      · rw [hcwr, retryLoop_tooMany_step h0, retryLoop_tooMany_step h1,
          retryLoop_tooMany_last h2']
        simp [tracedQueries, max_retries, h0, h1, h2]
      · rw [hcwr, retryLoop_tooMany_step h0, retryLoop_tooMany_step h1,
          retryLoop_gw h2']
        simp [tracedQueries, max_retries, h0, h1, h2]
      · rw [hcwr, retryLoop_tooMany_step h0, retryLoop_tooMany_step h1,
          retryLoop_other h2']
        simp [tracedQueries, max_retries, h0, h1, h2]
    · rw [hcwr, retryLoop_tooMany_step h0, retryLoop_gw h1]
      simp [tracedQueries, max_retries, h0, h1]
    · rw [hcwr, retryLoop_tooMany_step h0, retryLoop_other h1]
      simp [tracedQueries, max_retries, h0, h1]
  · rw [hcwr, retryLoop_gw h0]
    simp [tracedQueries, max_retries, h0]
  · rw [hcwr, retryLoop_other h0]
    simp [tracedQueries, max_retries, h0]

lemma leadingRateLimited_pos {oc : ℕ → QueryOutcome} {k : ℕ}
    (h : oc k = .tooManyRequests) : 1 ≤ leadingRateLimited oc k := by
  unfold leadingRateLimited
  rw [if_pos h]
  split_ifs <;> norm_num

lemma leadingRateLimited_zero {oc : ℕ → QueryOutcome} {k : ℕ}
    (h : oc k ≠ .tooManyRequests) : leadingRateLimited oc k = 0 := by
  unfold leadingRateLimited
  rw [if_neg h]

/-! # Claim theorems: retry policy and backoff -/

/-- C3 counterexample: the claim says a leaf query failing with a
Timeout is retried, but a gateway timeout is caught inside the query
body and resolved as an empty success — only a single attempt is
made. -/
theorem timeout_not_retried_counterexample :
    ¬ (∀ (oc : ℕ → QueryOutcome) (k : ℕ) (r : Region),
        oc k = QueryOutcome.gatewayTimeout →
        2 ≤ numAttempts idEnrich oc k r) := by
  intro h
  have h1 := h ocGW 0 rOne rfl
  have h2 : numAttempts idEnrich ocGW 0 rOne = 1 := by
    rw [numAttempts_eq, leadingRateLimited_zero (by simp [ocGW]),
      max_retries]
    norm_num
  omega

/-- C3 amended: a leaf query is retried iff the failure is RateLimited
(`OverpassTooManyRequests`); the attempt count is `min 3 (consecutive
rate-limited outcomes + 1)`, so no leaf query is attempted more than 3
times; an `Other` failure is never retried (one attempt, exception
propagated); and a Timeout is not retried either — it is caught inside
the attempt and resolves as a success with zero records. -/
theorem leaf_retry_policy (enrich : BeachData → BeachData)
    (oc : ℕ → QueryOutcome) (k : ℕ) (r : Region) :
    numAttempts enrich oc k r =
      min max_retries (leadingRateLimited oc k + 1) ∧
    numAttempts enrich oc k r ≤ 3 ∧
    (oc k = .tooManyRequests → 2 ≤ numAttempts enrich oc k r) ∧
    (∀ ht, oc k = .otherFailure ht →
      numAttempts enrich oc k r = 1 ∧
      (collect_with_retry enrich oc k r).1 =
        .error (.otherError ht)) ∧
    (oc k = .gatewayTimeout →
      numAttempts enrich oc k r = 1 ∧
      (collect_with_retry enrich oc k r).1 = .ok []) := by
  have hcwr : collect_with_retry enrich oc k r =
      retryLoop enrich oc r (1 + 1 + 1) 1 k := rfl
  refine ⟨numAttempts_eq enrich oc k r, ?_, ?_, ?_, ?_⟩
  · rw [numAttempts_eq]
    exact le_trans (min_le_left _ _) (by norm_num [max_retries])
  · intro h
    rw [numAttempts_eq]
    have := leadingRateLimited_pos h
    have hm : (2 : ℕ) ≤ max_retries := by norm_num [max_retries]
    omega
  · intro ht h
    constructor
    · rw [numAttempts_eq, leadingRateLimited_zero (by simp [h]),
        max_retries]
      norm_num
    · rw [hcwr, retryLoop_other h]
  · intro h
    constructor
    · rw [numAttempts_eq, leadingRateLimited_zero (by simp [h]),
        max_retries]
      norm_num
    · rw [hcwr, retryLoop_gw h]

theorem leaf_retry_policy_witness :
    ocGW 0 = QueryOutcome.gatewayTimeout ∧
      numAttempts idEnrich ocGW 0 rOne = 1 ∧
      (collect_with_retry idEnrich ocGW 0 rOne).1 = .ok [] :=
  ⟨rfl, ((leaf_retry_policy idEnrich ocGW 0 rOne).2.2.2.2 rfl).1,
    ((leaf_retry_policy idEnrich ocGW 0 rOne).2.2.2.2 rfl).2⟩

/-- C4 counterexample: over 3 consecutive RateLimited attempts the two
backoff delays are 4 and 4 — they neither strictly increase nor reach
the configured maximum of 10. -/
theorem backoff_not_strictly_increasing_counterexample :
    ¬ List.Chain' (fun a b => a < b ∨ b = wait_max)
      (retrySleeps idEnrich ocRL 0 rOne) := by
  have e : retrySleeps idEnrich ocRL 0 rOne = [4, 4] := by
    with_unfolding_all decide
  rw [e]
  intro hch
  rcases (List.chain'_cons.1 hch).1 with h | h
  · exact absurd h (by norm_num)
  · exact absurd h (by norm_num [wait_max])

/-- C4 amended: the delay after failed attempt `n` is `2 ^ n` clamped
into [4, 10]; over 3 consecutive RateLimited attempts both delays equal
the configured minimum 4 (2 and 4 are clamped up to 4, so they do not
strictly increase and do not reach the cap); the schedule is
non-decreasing, bounded by [4, 10], and equals the doubling value
`2 ^ n` exactly when that value lies within the clamp. -/
theorem backoff_schedule :
    retrySleeps idEnrich ocRL 0 rOne = [wait_min, wait_min] ∧
      (∀ n, waitExp n ≤ waitExp (n + 1)) ∧
      (∀ n, wait_min ≤ waitExp n ∧ waitExp n ≤ wait_max) ∧
      (∀ n, wait_min ≤ 2 ^ n → 2 ^ n ≤ wait_max →
        waitExp n = 2 ^ n) := by
  refine ⟨by with_unfolding_all decide, ?_, ?_, ?_⟩
  · intro n
    unfold waitExp
    exact max_le_max le_rfl
      (min_le_min (Nat.pow_le_pow_right (by norm_num) (Nat.le_succ n))
        le_rfl)
  · intro n
    exact ⟨le_max_left _ _,
      max_le (by norm_num [wait_min, wait_max]) (min_le_right _ _)⟩
  · intro n h1 h2
    unfold waitExp
    rw [min_eq_left h2, max_eq_right h1]

theorem backoff_schedule_witness :
    (wait_min ≤ 2 ^ 3 ∧ 2 ^ 3 ≤ wait_max) ∧ waitExp 3 = 2 ^ 3 :=
  ⟨⟨by norm_num [wait_min], by norm_num [wait_max]⟩,
    backoff_schedule.2.2.2 3 (by norm_num [wait_min])
      (by norm_num [wait_max])⟩

/-! # Helper lemmas: grid splitting -/

lemma natCeilSqrt_pos {n : ℕ} (h : 1 ≤ n) : 1 ≤ natCeilSqrt n := by
  unfold natCeilSqrt
  split_ifs with he
  · rcases Nat.eq_zero_or_pos (Nat.sqrt n) with h0 | h0
    · rw [h0] at he; omega
    · exact h0
  · omega

lemma ceilDiv_pos {a b : ℕ} (ha : 1 ≤ a) (hb : 1 ≤ b) :
    1 ≤ ceilDiv a b := by
  unfold ceilDiv
  rw [Nat.le_div_iff_mul_le hb]
  omega

lemma latSplitsOf_pos {r : Region} (hn : ¬ splitsNeeded r ≤ 1) :
    1 ≤ latSplitsOf r := by
  unfold latSplitsOf
  split_ifs with hc
  · exact natCeilSqrt_pos (by omega)
  · exact le_rfl

lemma lonSplitsOf_pos {r : Region} (hn : ¬ splitsNeeded r ≤ 1) :
    1 ≤ lonSplitsOf r :=
  ceilDiv_pos (by omega) (latSplitsOf_pos hn)

lemma calculate_area_subCell (r : Region) (i j : ℕ) :
    calculate_area (subCell r i j) = latStepOf r * lonStepOf r := by
  simp only [calculate_area, subCell]
  push_cast
  ring

lemma sum_map_flatMap_range (g : ℕ → ℕ → Region) (c : ℚ)
    (hg : ∀ i j, calculate_area (g i j) = c) (M : ℕ) :
    ∀ L : ℕ,
      (((List.range L).flatMap fun i =>
          (List.range M).map (g i)).map calculate_area).sum =
        (L : ℚ) * (M : ℚ) * c := by
  intro L
  induction L with
  | zero => simp
  | succ L ih =>
    rw [List.range_succ, List.flatMap_append, List.map_append,
      List.sum_append, ih]
    have hrow : (((List.range M).map (g L)).map calculate_area).sum =
        (M : ℚ) * c := by
      rw [List.map_map]
      have : (calculate_area ∘ g L) = fun _ => c := by
        funext j; simp [hg]
      rw [this, List.map_const', List.sum_replicate, List.length_range,
        nsmul_eq_mul]
    simp only [List.flatMap_cons, List.flatMap_nil, List.append_nil]
    rw [hrow]
    push_cast
    ring

lemma mem_splits {r : Region} {b : Region}
    (hn : ¬ splitsNeeded r ≤ 1) :
    b ∈ calculate_optimal_splits r ↔
      ∃ i < latSplitsOf r, ∃ j < lonSplitsOf r, b = subCell r i j := by
  simp only [calculate_optimal_splits, if_neg hn, List.mem_flatMap,
    List.mem_map, List.mem_range]
  constructor
  · rintro ⟨i, hi, j, hj, hb⟩
    exact ⟨i, hi, j, hj, hb.symm⟩
  · rintro ⟨i, hi, j, hj, hb⟩
    exact ⟨i, hi, j, hj, hb.symm⟩

lemma band_nonpos {x h : ℚ} (hh : 0 < h) {a b : ℕ} (hab : a ≠ b) :
    min (x + ((a : ℚ) + 1) * h) (x + ((b : ℚ) + 1) * h) -
      max (x + (a : ℚ) * h) (x + (b : ℚ) * h) ≤ 0 := by
  rcases Nat.lt_or_ge a b with hlt | hge
  · have h1 : min (x + ((a : ℚ) + 1) * h) (x + ((b : ℚ) + 1) * h) ≤
        x + ((a : ℚ) + 1) * h := min_le_left _ _
    have h2 : x + (b : ℚ) * h ≤
        max (x + (a : ℚ) * h) (x + (b : ℚ) * h) := le_max_right _ _
    have hc : (a : ℚ) + 1 ≤ (b : ℚ) := by exact_mod_cast hlt
    nlinarith
  · have hlt : b < a := lt_of_le_of_ne hge (Ne.symm hab)
    have h1 : min (x + ((a : ℚ) + 1) * h) (x + ((b : ℚ) + 1) * h) ≤
        x + ((b : ℚ) + 1) * h := min_le_right _ _
    have h2 : x + (a : ℚ) * h ≤
        max (x + (a : ℚ) * h) (x + (b : ℚ) * h) := le_max_left _ _
    have hc : (b : ℚ) + 1 ≤ (a : ℚ) := by exact_mod_cast hlt
    nlinarith

lemma subCell_overlap_zero (r : Region)
    (hh : 0 < latStepOf r) (hg : 0 < lonStepOf r)
    {i j i' j' : ℕ} (hne : ¬ (i = i' ∧ j = j')) :
    overlap_area (subCell r i j) (subCell r i' j') = 0 := by
  by_cases hii : i = i'
  · have hjj : j ≠ j' := fun hjj => hne ⟨hii, hjj⟩
    subst hii
    unfold overlap_area subCell
    dsimp only
    have hb := band_nonpos (x := r.west) hg hjj
    rw [max_eq_left hb, mul_zero]
  · unfold overlap_area subCell
    dsimp only
    have hb := band_nonpos (x := r.south) hh hii
    rw [max_eq_left hb, zero_mul]



/-- C5: for every bounding box with `south < north` and `west < east`,
the produced grid of sub-boxes exactly partitions the parent: the
sub-box areas sum exactly to the parent's area (hence within the 1e-9
tolerance), and any two distinct sub-boxes have zero overlap area. -/
theorem split_partitions_parent (r : Region)
    (hs : r.south < r.north) (hw : r.west < r.east) :
    ((calculate_optimal_splits r).map calculate_area).sum =
        calculate_area r ∧
      |((calculate_optimal_splits r).map calculate_area).sum -
          calculate_area r| ≤ 1 / 10 ^ 9 ∧
      ∀ b1 ∈ calculate_optimal_splits r,
        ∀ b2 ∈ calculate_optimal_splits r,
          b1 ≠ b2 → overlap_area b1 b2 = 0 := by
  have hsum : ((calculate_optimal_splits r).map calculate_area).sum =
      calculate_area r := by
    by_cases hn : splitsNeeded r ≤ 1
    · simp [calculate_optimal_splits, hn]
    · have hL := latSplitsOf_pos hn
      have hM := lonSplitsOf_pos hn
      have hL0 : (latSplitsOf r : ℚ) ≠ 0 :=
        ne_of_gt (Nat.cast_pos.mpr (by omega))
      have hM0 : (lonSplitsOf r : ℚ) ≠ 0 :=
        ne_of_gt (Nat.cast_pos.mpr (by omega))
      simp only [calculate_optimal_splits, if_neg hn]
      rw [sum_map_flatMap_range (subCell r)
        (latStepOf r * lonStepOf r) (calculate_area_subCell r)
        (lonSplitsOf r) (latSplitsOf r)]
      unfold latStepOf lonStepOf calculate_area
      field_simp
  refine ⟨hsum, ?_, ?_⟩
  · rw [hsum]
    simp
  · intro b1 hb1 b2 hb2 hne
    by_cases hn : splitsNeeded r ≤ 1
    · have h1 : b1 = r := by
        simpa [calculate_optimal_splits, hn] using hb1
      have h2 : b2 = r := by
        simpa [calculate_optimal_splits, hn] using hb2
      exact absurd (h1.trans h2.symm) hne
    · have hL := latSplitsOf_pos hn
      have hM := lonSplitsOf_pos hn
      have hh : 0 < latStepOf r :=
        div_pos (by linarith) (Nat.cast_pos.mpr (by omega))
      have hg : 0 < lonStepOf r :=
        div_pos (by linarith) (Nat.cast_pos.mpr (by omega))
      rcases (mem_splits hn).1 hb1 with ⟨i, hi, j, hj, hb1'⟩
      rcases (mem_splits hn).1 hb2 with ⟨i', hi', j', hj', hb2'⟩
      subst hb1' hb2'
      apply subCell_overlap_zero r hh hg
      rintro ⟨hii, hjj⟩
      exact hne (by rw [hii, hjj])

theorem split_partitions_parent_witness :
    (rBig.south < rBig.north ∧ rBig.west < rBig.east) ∧
      ((calculate_optimal_splits rBig).map calculate_area).sum =
        calculate_area rBig ∧
      |((calculate_optimal_splits rBig).map calculate_area).sum -
          calculate_area rBig| ≤ 1 / 10 ^ 9 ∧
      ∀ b1 ∈ calculate_optimal_splits rBig,
        ∀ b2 ∈ calculate_optimal_splits rBig,
          b1 ≠ b2 → overlap_area b1 b2 = 0 :=
  ⟨⟨by norm_num [rBig], by norm_num [rBig]⟩,
    split_partitions_parent rBig (by norm_num [rBig])
      (by norm_num [rBig])⟩

/-! # Helper lemmas and claim theorems: the collection state machine -/

lemma flatMap_range_map_getElem {α : Type _} :
    ∀ (i : ℕ) (f : ℕ → ℕ → α) (L M j : ℕ), i < L → j < M →
      ((List.range L).flatMap fun a =>
          (List.range M).map (f a))[i * M + j]? = some (f i j)
  | 0, f, L, M, j, hi, hj => by
    rcases L with _ | L'
    · omega
    · rw [List.range_succ_eq_map, List.flatMap_cons, Nat.zero_mul,
        Nat.zero_add, List.getElem?_append_left (by simpa using hj)]
      simp [List.getElem?_range hj]
  | i + 1, f, L, M, j, hi, hj => by
    rcases L with _ | L'
    · omega
    · rw [List.range_succ_eq_map, List.flatMap_cons,
        show (i + 1) * M + j = M + (i * M + j) by ring,
        List.getElem?_append_right (by simp)]
      simp only [List.length_map, List.length_range,
        Nat.add_sub_cancel_left]
      rw [List.flatMap_map]
      exact flatMap_range_map_getElem i (fun a => f (a + 1)) L' M j
        (by omega) hj

lemma retryLoop_queries (enrich : BeachData → BeachData)
    (oc : ℕ → QueryOutcome) (r : Region) :
    ∀ (tries attempt k : ℕ),
      ∀ q ∈ tracedQueries (retryLoop enrich oc r tries attempt k).2.2,
        q = r
  | 0, attempt, k => by simp [retryLoop, tracedQueries]
  | 1, attempt, k => by
    rcases h : oc k with ws | _ | _ | ht
    · rw [retryLoop_ways h]
      simp [tracedQueries]
    · rw [retryLoop_tooMany_last h]
      simp [tracedQueries]
    · rw [retryLoop_gw h]
      simp [tracedQueries]
    · rw [retryLoop_other h]
      simp [tracedQueries]
  | tries + 1 + 1, attempt, k => by
    rcases h : oc k with ws | _ | _ | ht
    · rw [retryLoop_ways h]
      simp [tracedQueries]
    · rw [retryLoop_tooMany_step h]
      intro q hq
      simp only [tracedQueries, List.filterMap_cons] at hq
      rcases List.mem_cons.1 hq with h' | h'
      · exact h'
      · exact retryLoop_queries enrich oc r (tries + 1) (attempt + 1)
          (k + 1) q h'
    · rw [retryLoop_gw h]
      simp [tracedQueries]
    · rw [retryLoop_other h]
      simp [tracedQueries]

lemma retryLoop_queries_pos (enrich : BeachData → BeachData)
    (oc : ℕ → QueryOutcome) (r : Region) (tries attempt k : ℕ)
    (h : 1 ≤ tries) :
    1 ≤ (tracedQueries
        (retryLoop enrich oc r tries attempt k).2.2).length := by
  rcases tries with _ | tries
  · omega
  · rcases h' : oc k with ws | _ | _ | ht
    · rw [retryLoop_ways h']
      simp [tracedQueries]
    · rcases tries with _ | tries
      · rw [retryLoop_tooMany_last h']
        simp [tracedQueries]
      · rw [retryLoop_tooMany_step h']
        simp [tracedQueries]
    · rw [retryLoop_gw h']
      simp [tracedQueries]
    · rw [retryLoop_other h']
      simp [tracedQueries]



lemma collect_with_retry_queries (enrich : BeachData → BeachData)
    (oc : ℕ → QueryOutcome) (k : ℕ) (r : Region) :
    ∀ q ∈ tracedQueries (collect_with_retry enrich oc k r).2.2, q = r :=
  retryLoop_queries enrich oc r max_retries 1 k

lemma collect_with_retry_queries_pos (enrich : BeachData → BeachData)
    (oc : ℕ → QueryOutcome) (k : ℕ) (r : Region) :
    1 ≤ (tracedQueries
        (collect_with_retry enrich oc k r).2.2).length :=
  retryLoop_queries_pos enrich oc r max_retries 1 k
    (by norm_num [max_retries])

lemma splitLoop_cons_ok {enrich : BeachData → BeachData}
    {oc : ℕ → QueryOutcome} {k : ℕ} {sub : Region}
    {bs : List BeachData} {k' : ℕ} {tr : List Event}
    (h : collect_with_retry enrich oc k sub = (.ok bs, k', tr))
    (rest : List Region) :
    splitLoop enrich oc (sub :: rest) k =
      (bs ++ (splitLoop enrich oc rest k').1,
        (splitLoop enrich oc rest k').2.1,
        (Event.sleep query_delay :: tr) ++
          Event.sleep split_delay ::
            (splitLoop enrich oc rest k').2.2) := by
  rcases hsp : splitLoop enrich oc rest k' with ⟨acc, k'', tr'⟩
  simp [splitLoop, h, hsp]

lemma splitLoop_cons_err {enrich : BeachData → BeachData}
    {oc : ℕ → QueryOutcome} {k : ℕ} {sub : Region}
    {e : CollectError} {k' : ℕ} {tr : List Event}
    (h : collect_with_retry enrich oc k sub = (.error e, k', tr))
    (rest : List Region) :
    splitLoop enrich oc (sub :: rest) k =
      ((splitLoop enrich oc rest k').1,
        (splitLoop enrich oc rest k').2.1,
        (Event.sleep query_delay :: tr) ++
          (splitLoop enrich oc rest k').2.2) := by
  rcases hsp : splitLoop enrich oc rest k' with ⟨acc, k'', tr'⟩
  simp [splitLoop, h, hsp]

lemma splitLoop_queries (enrich : BeachData → BeachData)
    (oc : ℕ → QueryOutcome) :
    ∀ (subs : List Region) (k : ℕ),
      ∀ q ∈ tracedQueries (splitLoop enrich oc subs k).2.2, q ∈ subs
  | [], k => by simp [splitLoop, tracedQueries]
  | sub :: rest, k => by
    intro q hq
    rcases hr : collect_with_retry enrich oc k sub with ⟨res, k', tr⟩
    rcases res with bs | e
    · rw [splitLoop_cons_ok hr] at hq
      simp only [tracedQueries, List.filterMap_cons,
        List.filterMap_append] at hq
      rcases List.mem_append.1 hq with h' | h'
      · have : q = sub := collect_with_retry_queries enrich oc k sub q
          (by rw [hr]; exact h')
        simp [this]
      · exact List.mem_cons_of_mem _ (splitLoop_queries enrich oc rest
          k' q (by simpa [tracedQueries] using h'))
    · rw [splitLoop_cons_err hr] at hq
      simp only [tracedQueries, List.filterMap_cons,
        List.filterMap_append] at hq
      rcases List.mem_append.1 hq with h' | h'
      · have : q = sub := collect_with_retry_queries enrich oc k sub q
          (by rw [hr]; exact h')
        simp [this]
      · exact List.mem_cons_of_mem _ (splitLoop_queries enrich oc rest
          k' q (by simpa [tracedQueries] using h'))

lemma splitLoop_numqueries (enrich : BeachData → BeachData)
    (oc : ℕ → QueryOutcome) :
    ∀ (subs : List Region) (k : ℕ),
      subs.length ≤
        (tracedQueries (splitLoop enrich oc subs k).2.2).length
  | [], k => by simp [splitLoop, tracedQueries]
  | sub :: rest, k => by
    rcases hr : collect_with_retry enrich oc k sub with ⟨res, k', tr⟩
    have h1 : 1 ≤ (tracedQueries tr).length := by
      have := collect_with_retry_queries_pos enrich oc k sub
      rwa [hr] at this
    have h2 := splitLoop_numqueries enrich oc rest k'
    rcases res with bs | e
    · rw [splitLoop_cons_ok hr]
      simp only [tracedQueries, List.filterMap_cons,
        List.filterMap_append, List.length_append, List.length_cons]
      simp only [tracedQueries] at h1 h2
      simp [List.length_append]
      omega
    · rw [splitLoop_cons_err hr]
      simp only [tracedQueries, List.filterMap_cons,
        List.filterMap_append, List.length_append, List.length_cons]
      simp only [tracedQueries] at h1 h2
      simp [List.length_append]
      omega



/-- C1: the `Evaluate` decision of `collect`: split exactly when
`area > max_area` and `area > min_area`; otherwise query directly; when
the direct query returns no records and the area is still above
`min_area`, the box is split anyway (the direct attempt's trace is
followed by the split collection); and when the area is at or below
`min_area`, an empty direct result resolves with zero records and the
box is never subdivided (the whole result is exactly the direct
attempt's); a non-empty direct result is returned as is. -/
theorem evaluate_decision (enrich : BeachData → BeachData)
    (oc : ℕ → QueryOutcome) (k : ℕ) (r : Region) :
    (max_area < calculate_area r ∧ min_area < calculate_area r →
      collect enrich oc k r = collect_split_region enrich oc k r) ∧
    (¬ (max_area < calculate_area r ∧ min_area < calculate_area r) →
      ∀ k' tr, collect_with_retry enrich oc k r = (.ok [], k', tr) →
        (min_area < calculate_area r →
          collect enrich oc k r =
            ((collect_split_region enrich oc k' r).1,
              (collect_split_region enrich oc k' r).2.1,
              tr ++ (collect_split_region enrich oc k' r).2.2)) ∧
        (calculate_area r ≤ min_area →
          collect enrich oc k r = (.ok [], k', tr))) ∧
    (¬ (max_area < calculate_area r ∧ min_area < calculate_area r) →
      ∀ bs k' tr, collect_with_retry enrich oc k r = (.ok bs, k', tr) →
        bs ≠ [] → collect enrich oc k r = (.ok bs, k', tr)) := by
  refine ⟨?_, ?_, ?_⟩
  · intro h
    simp only [collect, if_pos h]
  · intro h k' tr hret
    constructor
    · intro hmin
      simp only [collect, if_neg h, hret]
      rw [if_pos (show True ∧ calculate_area r > min_area from
        ⟨trivial, hmin⟩)]
    · intro hle
      simp only [collect, if_neg h, hret]
      rw [if_neg (fun hc => absurd hc.2 (not_lt.2 hle))]
  · intro h bs k' tr hret hne
    simp only [collect, if_neg h, hret]
    rw [if_neg (fun hc => hne hc.1)]



def ocOther : ℕ → QueryOutcome := fun _ => .otherFailure false

lemma collect_split_region_eta (enrich : BeachData → BeachData)
    (oc : ℕ → QueryOutcome) (k : ℕ) (r : Region) :
    collect_split_region enrich oc k r =
      (.ok (splitLoop enrich oc (calculate_optimal_splits r) k).1,
        (splitLoop enrich oc (calculate_optimal_splits r) k).2.1,
        (splitLoop enrich oc (calculate_optimal_splits r) k).2.2) := by
  unfold collect_split_region
  rcases hsp : splitLoop enrich oc (calculate_optimal_splits r) k with
    ⟨a, b, c⟩
  simp [hsp]

theorem evaluate_decision_witness :
    ((max_area < calculate_area rBig ∧
        min_area < calculate_area rBig) ∧
      collect idEnrich ocEmpty 0 rBig =
        collect_split_region idEnrich ocEmpty 0 rBig) ∧
    (¬ (max_area < calculate_area rTiny ∧
        min_area < calculate_area rTiny)) ∧
    collect_with_retry idEnrich ocEmpty 0 rTiny =
      (.ok [], 1, [Event.query rTiny, Event.sleep query_delay]) ∧
    calculate_area rTiny ≤ min_area ∧
    collect idEnrich ocEmpty 0 rTiny =
      (.ok [], 1, [Event.query rTiny, Event.sleep query_delay]) := by
  have hbig : max_area < calculate_area rBig ∧
      min_area < calculate_area rBig := by
    norm_num [max_area, min_area, calculate_area, rBig]
  have htiny : ¬ (max_area < calculate_area rTiny ∧
      min_area < calculate_area rTiny) := by
    norm_num [max_area, min_area, calculate_area, rTiny]
  have hle : calculate_area rTiny ≤ min_area := by
    norm_num [min_area, calculate_area, rTiny]
  have hret : collect_with_retry idEnrich ocEmpty 0 rTiny =
      (.ok [], 1, [Event.query rTiny, Event.sleep query_delay]) := by
    with_unfolding_all decide
  exact ⟨⟨hbig, (evaluate_decision idEnrich ocEmpty 0 rBig).1 hbig⟩,
    htiny, hret, hle,
    ((evaluate_decision idEnrich ocEmpty 0 rTiny).2.1 htiny 1 _ hret).2
      hle⟩

/-- C2 counterexample: sub-boxes produced by a split do not re-enter
`Evaluate`: on a 2°×4° region whose first sub-box query is empty, the
code's split collection differs from the spec-side recursion in which
each sub-box re-enters `collect` (the latter would subdivide the empty
sub-box again and query it a second time). -/
theorem subboxes_reenter_evaluate_counterexample :
    ¬ (∀ (enrich : BeachData → BeachData) (oc : ℕ → QueryOutcome)
        (k : ℕ) (r : Region),
        collect_split_region enrich oc k r =
          spec_collect_split_region enrich oc k r) := by
  intro h
  exact absurd (h idEnrich ocEmptyThenGood 0 rMed)
    (by with_unfolding_all decide)

/-- C2 amended: every query issued during split collection is on one of
the first-level sub-boxes (no sub-box is further subdivided or
re-evaluated); the sub-boxes are enumerated in row-major order (cell
`(i, j)` sits at index `i * lon_splits + j`); and the split loop sleeps
the query delay before the first sub-box evaluation (each sub-box is
preceded by the query delay and followed by the inter-branch delay when
it succeeds). -/
theorem subboxes_queried_directly (enrich : BeachData → BeachData)
    (oc : ℕ → QueryOutcome) (k : ℕ) (r : Region) :
    (∀ q ∈ tracedQueries (collect_split_region enrich oc k r).2.2,
        q ∈ calculate_optimal_splits r) ∧
    (2 ≤ splitsNeeded r →
      ∀ i j, i < latSplitsOf r → j < lonSplitsOf r →
        (calculate_optimal_splits r)[i * lonSplitsOf r + j]? =
          some (subCell r i j)) ∧
    (calculate_optimal_splits r ≠ [] →
      (collect_split_region enrich oc k r).2.2.head? =
        some (Event.sleep query_delay)) := by
  refine ⟨?_, ?_, ?_⟩
  · intro q hq
    rw [collect_split_region_eta] at hq
    exact splitLoop_queries enrich oc _ k q hq
  · intro hn i j hi hj
    have he : calculate_optimal_splits r =
        (List.range (latSplitsOf r)).flatMap fun a =>
          (List.range (lonSplitsOf r)).map (subCell r a) := by
      unfold calculate_optimal_splits
      rw [if_neg (by omega)]
    rw [he]
    exact flatMap_range_map_getElem i (subCell r) _ _ j hi hj
  · intro hne
    rw [collect_split_region_eta]
    rcases hsplits : calculate_optimal_splits r with _ | ⟨sub, rest⟩
    · exact absurd hsplits hne
    · rcases hr : collect_with_retry enrich oc k sub with ⟨res, k', tr⟩
      rcases res with bs | e
      · rw [splitLoop_cons_ok hr]
        simp
      · rw [splitLoop_cons_err hr]
        simp

theorem subboxes_queried_directly_witness :
    (2 ≤ splitsNeeded rMed ∧ 0 < latSplitsOf rMed ∧
        1 < lonSplitsOf rMed ∧ calculate_optimal_splits rMed ≠ []) ∧
      (calculate_optimal_splits rMed)[0 * lonSplitsOf rMed + 1]? =
        some (subCell rMed 0 1) ∧
      (collect_split_region idEnrich ocEmpty 0 rMed).2.2.head? =
        some (Event.sleep query_delay) := by
  have hn : 2 ≤ splitsNeeded rMed := by with_unfolding_all decide
  have hlat : 0 < latSplitsOf rMed := by with_unfolding_all decide
  have hlon : 1 < lonSplitsOf rMed := by with_unfolding_all decide
  have hne : calculate_optimal_splits rMed ≠ [] := by
    with_unfolding_all decide
  exact ⟨⟨hn, hlat, hlon, hne⟩,
    (subboxes_queried_directly idEnrich ocEmpty 0 rMed).2.1 hn 0 1 hlat
      hlon,
    (subboxes_queried_directly idEnrich ocEmpty 0 rMed).2.2 hne⟩

/-- C8 counterexample: a top-level request over a well-formed bounding
box can still fail synchronously: a 1°×1° box goes down the direct-query
path, and an `Other` failure there is re-raised by `collect` (the
"only a malformed bounding box fails" part of the claim is false). -/
theorem top_level_other_failure_counterexample :
    ¬ (∀ (enrich : BeachData → BeachData) (oc : ℕ → QueryOutcome)
        (k : ℕ) (r : Region), r.south < r.north → r.west < r.east →
        ∃ bs, (collect enrich oc k r).1 = CResult.ok bs) := by
  intro h
  rcases h idEnrich ocOther 0 rOne (by norm_num [rOne])
    (by norm_num [rOne]) with ⟨bs, hbs⟩
  have he : (collect idEnrich ocOther 0 rOne).1 =
      CResult.error (.otherError false) := by with_unfolding_all decide
  rw [he] at hbs
  exact CResult.noConfusion hbs

/-- C8 amended: split collection never raises (every sub-box branch that
exhausts its recovery contributes zero records), every sub-box is
attempted even after earlier siblings fail (at least one query per
sub-box appears in the trace), but a top-level direct query whose
failure is not a timeout-message exception propagates the exception to
the caller — synchronous failure is not limited to malformed bounding
boxes. -/
theorem branch_failure_isolation (enrich : BeachData → BeachData)
    (oc : ℕ → QueryOutcome) (k : ℕ) (r : Region) :
    (∃ bs, (collect_split_region enrich oc k r).1 = CResult.ok bs) ∧
    ((calculate_optimal_splits r).length ≤
      (tracedQueries (collect_split_region enrich oc k r).2.2).length) ∧
    (∀ e, ¬ (max_area < calculate_area r ∧
        min_area < calculate_area r) →
      ∀ k' tr, collect_with_retry enrich oc k r = (.error e, k', tr) →
        excHasTimeoutMsg e = false →
        collect enrich oc k r = (.error e, k', tr)) := by
  refine ⟨?_, ?_, ?_⟩
  · rw [collect_split_region_eta]
    exact ⟨_, rfl⟩
  · rw [collect_split_region_eta]
    exact splitLoop_numqueries enrich oc _ k
  · intro e h k' tr hret hmsg
    simp only [collect, if_neg h, hret]
    rw [if_neg (by simp [hmsg])]

theorem branch_failure_isolation_witness :
    (¬ (max_area < calculate_area rOne ∧
        min_area < calculate_area rOne)) ∧
      collect_with_retry idEnrich ocOther 0 rOne =
        (.error (.otherError false), 1, [Event.query rOne]) ∧
      excHasTimeoutMsg (.otherError false) = false ∧
      collect idEnrich ocOther 0 rOne =
        (.error (.otherError false), 1, [Event.query rOne]) := by
  have h1 : ¬ (max_area < calculate_area rOne ∧
      min_area < calculate_area rOne) := by
    norm_num [max_area, min_area, calculate_area, rOne]
  have h2 : collect_with_retry idEnrich ocOther 0 rOne =
      (.error (.otherError false), 1, [Event.query rOne]) := by
    with_unfolding_all decide
  exact ⟨h1, h2, rfl,
    (branch_failure_isolation idEnrich ocOther 0 rOne).2.2
      (.otherError false) h1 1 [Event.query rOne] h2 rfl⟩

end BeachDB
